import Mathlib

/-!
Verification of the Prosperity trading engine.

We give a shallow embedding of the market-making pipeline implemented in
`trader3.py`, `trader_round2.py`, `trader.py` and `trader2.py`: the rolling
price store, the statistical estimators (`ewma`, `rolling_std`,
`linear_regression`), the order-sizing function `compute_order_size`, the
position-constrained quote generator, and the basket conversion evaluator.
Python floats are modelled by real numbers; Python's `round` (round half to
even) is modelled by `pyRound`; dictionaries (`price -> quantity`) are
modelled by association lists of integers.
-/

/-- An emitted order: `Order(product, price, quantity)`.  Positive quantity
is a buy, negative quantity is a sell. -/
structure Order where
  symbol : String
  price : ℤ
  quantity : ℤ
  deriving Repr, DecidableEq

/-- One product's order book: `buy_orders` and `sell_orders` are the two
Python dicts mapping price to resting quantity. -/
structure OrderDepth where
  buy_orders : List (ℤ × ℤ)
  sell_orders : List (ℤ × ℤ)
  deriving Repr, DecidableEq

/-- Python `max(d.keys())` of a dict, default 0 (never used on empty dicts). -/
def maxKeys (l : List (ℤ × ℤ)) : ℤ := ((l.map Prod.fst).max?).getD 0

/-- Python `min(d.keys())` of a dict, default 0 (never used on empty dicts). -/
def minKeys (l : List (ℤ × ℤ)) : ℤ := ((l.map Prod.fst).min?).getD 0

/-- Python `max(d.values())` of a dict, default 0 (never used on empty dicts). -/
def maxVals (l : List (ℤ × ℤ)) : ℤ := ((l.map Prod.snd).max?).getD 0

/-- Python `min(d.values())` of a dict, default 0 (never used on empty dicts). -/
def minVals (l : List (ℤ × ℤ)) : ℤ := ((l.map Prod.snd).min?).getD 0

/-- Python 3 `round` on a real number: round half to even. -/
noncomputable def pyRound (x : ℝ) : ℤ :=
  if x - ⌊x⌋ < 1/2 then ⌊x⌋
  else if 1/2 < x - ⌊x⌋ then ⌊x⌋ + 1
  else if ⌊x⌋ % 2 = 0 then ⌊x⌋ else ⌊x⌋ + 1

/-- Function `ewma(prices, alpha)` from `trader3.py` lines 10-20 / `trader_round2.py`
lines 27-34: start from the first price and fold
`avg <- alpha * p + (1 - alpha) * avg` over the rest; 0 on empty input. -/
def ewma (prices : List ℝ) (alpha : ℝ) : ℝ :=
  match prices with
  | [] => 0
  | p :: ps => ps.foldl (fun avg q => alpha * q + (1 - alpha) * avg) p

/-- Python `statistics.mean` on a list of reals. -/
noncomputable def listMean (prices : List ℝ) : ℝ := prices.sum / prices.length

/-- Function `rolling_std(prices)` from `trader3.py` lines 22-28 / `trader_round2.py`
lines 37-41: the population standard deviation (`statistics.pstdev`),
with fallback 1.0 for fewer than two observations. -/
noncomputable def rolling_std (prices : List ℝ) : ℝ :=
  if prices.length < 2 then 1
  else Real.sqrt (((prices.map (fun p => (p - listMean prices) ^ 2)).sum) / prices.length)

/-- Function `linear_regression(prices)` from `trader3.py` lines 30-49 /
`trader_round2.py` lines 44-61: ordinary least squares of price against
index `0..n-1`; returns (prediction at `x = n`, slope). -/
noncomputable def linear_regression (prices : List ℝ) : ℝ × ℝ :=
  if prices.length = 0 then (0, 0)
  else if prices.length = 1 then (prices.headD 0, 0)
  else
    let n := prices.length
    let xs : List ℝ := (List.range n).map (fun i => (i : ℝ))
    let mean_x := listMean xs
    let mean_y := listMean prices
    let num := ((xs.zip prices).map (fun xy => (xy.1 - mean_x) * (xy.2 - mean_y))).sum
    let den := (xs.map (fun x => (x - mean_x) ^ 2)).sum
    let slope := if den ≠ 0 then num / den else 0
    let intercept := mean_y - slope * mean_x
    (intercept + slope * n, slope)

/-- The liquidity-factor block of `compute_order_size` (`trader3.py` lines
85-96, identical in `trader_round2.py` lines 95-105): with both book sides
present, the average of `max(buy_orders.values())` and
`min(sell_orders.values())`; with one side, that side's `max`/`min` of
values; with an empty book, the base scale. -/
noncomputable def liquidityFactor (od : OrderDepth) (base_scale : ℝ) : ℝ :=
  if od.buy_orders ≠ [] ∧ od.sell_orders ≠ [] then
    ((maxVals od.buy_orders : ℝ) + (minVals od.sell_orders : ℝ)) / 2
  else if od.buy_orders ≠ [] then (maxVals od.buy_orders : ℝ)
  else if od.sell_orders ≠ [] then (minVals od.sell_orders : ℝ)
  else base_scale

/-- Constant `GAP_MULTIPLIER = 20` of `trader3.py` / `trader_round2.py`. -/
def GAP_MULTIPLIER : ℝ := 20

/-- Constant `WINDOW_SIZE = 20` of `trader3.py` / `trader_round2.py`. -/
def WINDOW_SIZE : ℕ := 20

/-- Constant `LIMIT = 50` of `trader3.py`. -/
def LIMIT : ℤ := 50

namespace Trader3

/-- Function `compute_order_size` from `trader3.py` lines 52-108.  The
`current_position` parameter is declared but never read by the body; it is
typed `ℝ` here because `Trader.run` (line 170) actually passes the fair
value (a float) in this slot. -/
noncomputable def compute_order_size (product : String) (recent_prices : List ℝ)
    (order_depth : OrderDepth) (current_position : ℝ) (fair_value : ℝ) : ℤ :=
  if recent_prices = [] then 1
  else
    let vol0 := rolling_std recent_prices
    let vol := if vol0 = 0 then 1 else vol0
    let base_scale : ℝ :=
      if product = "RAINFOREST_RESIN" then 5
      else if product = "KELP" then 3
      else if product = "SQUID_INK" then
        (if 1/2 < |(linear_regression recent_prices).2| then 6 else 4)
      else 5
    let liquidity_factor := liquidityFactor order_depth base_scale
    let current_price := recent_prices.getLastD 0
    let gap := |current_price - fair_value|
    let gap_percentage := if fair_value ≠ 0 then gap / fair_value * 100 else 0
    let gap_multiplier := 1 + gap_percentage * GAP_MULTIPLIER
    let computed_size := pyRound (base_scale * (liquidity_factor / vol) * gap_multiplier)
    min (max 3 computed_size) 20

end Trader3

namespace Round2

/-- Function `compute_order_size` from `trader_round2.py` lines 64-114.  Identical to
the `trader3.py` version except for the per-product base scales.  The
`current_position` parameter is declared but never read by the body. -/
noncomputable def compute_order_size (product : String) (recent_prices : List ℝ)
    (order_depth : OrderDepth) (current_position : ℝ) (fair_value : ℝ) : ℤ :=
  if recent_prices = [] then 1
  else
    let vol0 := rolling_std recent_prices
    let vol := if vol0 = 0 then 1 else vol0
    let base_scale : ℝ :=
      if product = "CROISSANTS" ∨ product = "JAMS" then 5
      else if product = "DJEMBES" then
        (if 1/2 < |(linear_regression recent_prices).2| then 6 else 4)
      else if product = "PICNIC_BASKET1" ∨ product = "PICNIC_BASKET2" then 3
      else 5
    let liquidity_factor := liquidityFactor order_depth base_scale
    let current_price := recent_prices.getLastD 0
    let gap := |current_price - fair_value|
    let gap_percentage := if fair_value ≠ 0 then gap / fair_value * 100 else 0
    let gap_multiplier := 1 + gap_percentage * GAP_MULTIPLIER
    let computed_size := pyRound (base_scale * (liquidity_factor / vol) * gap_multiplier)
    min (max 3 computed_size) 20

end Round2

/-- The quote block shared by `trader3.py` lines 172-183 and
`trader_round2.py` lines 185-192: cap the computed size by the remaining
room on each side of the position limit and emit at most one buy and one
sell order. -/
def quoteBlock (product : String) (limit pos base_size bid_price ask_price : ℤ) :
    List Order :=
  let available_buy := limit - pos
  let available_sell := limit + pos
  let buy_size := if 0 < available_buy then min base_size available_buy else 0
  let sell_size := if 0 < available_sell then min base_size available_sell else 0
  (if 0 < buy_size then [⟨product, bid_price, buy_size⟩] else []) ++
    (if 0 < sell_size then [⟨product, ask_price, -sell_size⟩] else [])

/-- Sum of the signed quantities of a list of orders: the position change
if every order is fully filled. -/
def sumQty (orders : List Order) : ℤ := (orders.map Order.quantity).sum

namespace Trader3

/-- The per-product fair value and spread of `Trader.run` in `trader3.py`
lines 132-151 (the spread is already floored at 1 by line 151). -/
noncomputable def fairAndSpread (product : String) (recent : List ℝ) : ℝ × ℝ :=
  if product = "RAINFOREST_RESIN" then
    (ewma recent (1/10), max 1 (2 * rolling_std recent))
  else if product = "KELP" then
    (ewma recent (3/10), max 1 (3 * rolling_std recent))
  else
    (( linear_regression recent).1,
      max 1 (2 * rolling_std recent + 1/2 * |(linear_regression recent).2|))

/-- The order-generation step of `Trader.run` in `trader3.py` lines 155-199
for one product, given that product's rolling price window, order book and
current position.  Line 170 passes `fv` in the `current_position` slot of
`compute_order_size` and `current_pos` in its `fair_value` slot; the
embedding reproduces that call faithfully. -/
noncomputable def ordersFor (product : String) (recent : List ℝ)
    (od : OrderDepth) (pos : ℤ) : List Order :=
  if product = "RAINFOREST_RESIN" ∨ product = "KELP" ∨ product = "SQUID_INK" then
    let fs := fairAndSpread product recent
    let bid_price := pyRound (fs.1 - fs.2 / 2)
    let ask_price := pyRound (fs.1 + fs.2 / 2)
    let base_size := compute_order_size product recent od fs.1 (pos : ℝ)
    quoteBlock product LIMIT pos base_size bid_price ask_price
  else []

end Trader3

/-- Table `POSITION_LIMITS` of `trader_round2.py` lines 9-15, as a function
(0 for products outside the table, which the quoting branch never reaches). -/
def POSITION_LIMITS (product : String) : ℤ :=
  if product = "CROISSANTS" then 250
  else if product = "JAMS" then 350
  else if product = "DJEMBES" then 60
  else if product = "PICNIC_BASKET1" then 60
  else if product = "PICNIC_BASKET2" then 100
  else 0

namespace Round2

/-- The fair-value map of `Trader.run` in `trader_round2.py` lines 140-165,
as a function of the three ingredient windows (`fair_values.get(product, 0)`
for unknown products).  Basket fair values are the fixed linear combinations
of lines 160-163. -/
noncomputable def fairValue (cw jw dw : List ℝ) (product : String) : ℝ :=
  if product = "CROISSANTS" then ewma cw (1/5)
  else if product = "JAMS" then ewma jw (1/5)
  else if product = "DJEMBES" then (linear_regression dw).1
  else if product = "PICNIC_BASKET1" then
    6 * ewma cw (1/5) + 3 * ewma jw (1/5) + 1 * (linear_regression dw).1
  else if product = "PICNIC_BASKET2" then
    4 * ewma cw (1/5) + 2 * ewma jw (1/5)
  else 0

/-- The spread map of `Trader.run` in `trader_round2.py` lines 140-168
(`spread_map.get(product, 1)` for unknown products). -/
noncomputable def spreadOf (cw jw dw : List ℝ) (product : String) : ℝ :=
  if product = "CROISSANTS" then max 1 (2 * rolling_std cw)
  else if product = "JAMS" then max 1 (2 * rolling_std jw)
  else if product = "DJEMBES" then
    max 1 (2 * rolling_std dw + 1/2 * |(linear_regression dw).2|)
  else if product = "PICNIC_BASKET1" then
    max 1 (1/20 * fairValue cw jw dw "PICNIC_BASKET1")
  else if product = "PICNIC_BASKET2" then
    max 1 (1/20 * fairValue cw jw dw "PICNIC_BASKET2")
  else 1

/-- The order-generation step of `Trader.run` in `trader_round2.py` lines
171-195 for one product.  `self.prices_map.get(product, [fv])` yields the
ingredient window for ingredients and the singleton `[fv]` for baskets. -/
noncomputable def ordersFor (product : String) (cw jw dw : List ℝ)
    (od : OrderDepth) (pos : ℤ) : List Order :=
  if product = "CROISSANTS" ∨ product = "JAMS" ∨ product = "DJEMBES" ∨
      product = "PICNIC_BASKET1" ∨ product = "PICNIC_BASKET2" then
    let fv := fairValue cw jw dw product
    let spread := spreadOf cw jw dw product
    let bid_price := pyRound (fv - spread / 2)
    let ask_price := pyRound (fv + spread / 2)
    let recent :=
      if product = "CROISSANTS" then cw
      else if product = "JAMS" then jw
      else if product = "DJEMBES" then dw
      else [fv]
    let base_size := compute_order_size product recent od (pos : ℝ) fv
    quoteBlock product (POSITION_LIMITS product) pos base_size bid_price ask_price
  else []

/-- The per-basket conversion evaluation of `Trader.run` in
`trader_round2.py` lines 206-216 / 219-229: with both book sides present,
compare the mid price against 0.95 / 1.05 times the intrinsic value;
`none` means no entry is added to `conversion_request`. -/
noncomputable def basketConversionSignal (od : OrderDepth) (intrinsic : ℝ)
    (conversion_limit : ℤ) : Option ℤ :=
  if od.buy_orders ≠ [] ∧ od.sell_orders ≠ [] then
    let best_bid := maxKeys od.buy_orders
    let best_ask := minKeys od.sell_orders
    let basket_mid : ℝ := ((best_bid : ℝ) + (best_ask : ℝ)) / 2
    if basket_mid < (0.95 : ℝ) * intrinsic then some conversion_limit
    else if basket_mid > (1.05 : ℝ) * intrinsic then some (-conversion_limit)
    else none
  else none

/-- Intrinsic value of `PICNIC_BASKET1` (line 160): 6 croissants + 3 jams +
1 djembe. -/
noncomputable def basket1_fv (c j d : ℝ) : ℝ := 6 * c + 3 * j + 1 * d

/-- Intrinsic value of `PICNIC_BASKET2` (line 163): 4 croissants + 2 jams. -/
noncomputable def basket2_fv (c j : ℝ) : ℝ := 4 * c + 2 * j

end Round2

/-- Python `l[-n:]`: the last `min(n, length)` elements of a list. -/
def lastN (n : ℕ) (l : List ℝ) : List ℝ := l.drop (l.length - n)

/-- The rolling-price-store update of `Trader.run` (`trader3.py` lines
122-128, `trader_round2.py` lines 133-137) for one product: when this
round's market-trade list for the product is non-empty, append the last
trade price and keep the most recent `WINDOW_SIZE` entries; otherwise leave
the window unchanged. -/
def updateWindow (window : List ℝ) (trades : List ℝ) : List ℝ :=
  match trades with
  | [] => window
  | _ => lastN WINDOW_SIZE (window ++ [trades.getLastD 0])

namespace TraderV1

/-- The per-product buy/sell step shared by `trader.py` lines 71-96 and
`trader2.py` lines 71-93: lift the best ask when it is below fair value
(emitting a negative quantity capped by `abs(-LIMIT - position)`), and hit
the best bid when it is above fair value (emitting a positive quantity
capped by `LIMIT - position`). -/
def ordersFor (product : String) (fair_value : ℚ) (od : OrderDepth)
    (pos : ℤ) : List Order :=
  let buyLeg : List Order :=
    if od.sell_orders.isEmpty then []
    else
      let best_ask := minKeys od.sell_orders
      let available_qty := (od.sell_orders.lookup best_ask).getD 0
      if (best_ask : ℚ) < fair_value then
        let max_buy := |(-LIMIT) - pos|
        let qty := min available_qty max_buy
        if 0 < qty then [⟨product, best_ask, -qty⟩] else []
      else []
  let sellLeg : List Order :=
    if od.buy_orders.isEmpty then []
    else
      let best_bid := maxKeys od.buy_orders
      let available_qty := (od.buy_orders.lookup best_bid).getD 0
      if fair_value < (best_bid : ℚ) then
        let max_sell := LIMIT - pos
        let qty := min available_qty max_sell
        if 0 < qty then [⟨product, best_bid, qty⟩] else []
      else []
  buyLeg ++ sellLeg

end TraderV1

namespace Trader2

/-- A decoded `historical_prices` map: product name to price list. -/
def HistMap : Type := List (String × List ℚ)

instance : DecidableEq HistMap := by
  unfold HistMap
  infer_instance

/-- The default price history of `trader2.py` lines 29-33, installed when no
usable prior state exists. -/
def defaultHist : HistMap :=
  [("RAINFOREST_RESIN", [100, 100, 101]),
   ("KELP", [50, 70, 55]),
   ("SQUID_INK", [40, 42, 44])]

/-- The state-restoration step of `Trader.run` in `trader2.py` lines 18-33.
`decoded` is the outcome of `jsonpickle.decode` on `traderData`
(`Except.error` models the decode raising), consulted only when
`traderData` is a non-empty (truthy) string; a raised decode, an absent
string, and a decoded falsy (empty) map all fall back to `defaultHist`. -/
def restoreHist (traderData : String) (decoded : Except Unit HistMap) : HistMap :=
  let h : Option HistMap :=
    if traderData = "" then none
    else match decoded with
      | .ok m => some m
      | .error _ => none
  match h with
  | some m => if m = ([] : HistMap) then defaultHist else m
  | none => defaultHist

/-- The remainder of `Trader.run` in `trader2.py` (lines 35-106) given the
restored history: the squid trend, the per-product fair values, and the
buy/sell orders of `ordersFor`; returns the order map, the conversions
value 1, and the history persisted for the next round. -/
def runWithHist (hist : HistMap) (order_depths : List (String × OrderDepth))
    (position : List (String × ℤ)) :
    List (String × List Order) × ℤ × HistMap :=
  let squid_prices := ((hist.lookup "SQUID_INK").getD [])
  let squid_trend : ℚ :=
    if 2 ≤ squid_prices.length then
      (squid_prices.getLastD 0 - squid_prices.headD 0) / ((squid_prices.length : ℚ) - 1)
    else 0
  let result := order_depths.map (fun pd =>
    let product := pd.1
    if product = "RAINFOREST_RESIN" ∨ product = "KELP" ∨ product = "SQUID_INK" then
      let prices_hist := (hist.lookup product).getD []
      let avg_price : ℚ :=
        if prices_hist.isEmpty then
          (if product = "RAINFOREST_RESIN" then 10 else 20)
        else prices_hist.sum / (prices_hist.length : ℚ)
      let fair_value :=
        if product = "SQUID_INK" then avg_price + 1/2 * squid_trend else avg_price
      let pos := (position.lookup product).getD 0
      (product, TraderV1.ordersFor product fair_value pd.2 pos)
    else (product, ([] : List Order)))
  (result, 1, hist)

/-- Method `Trader.run` of `trader2.py`: restore (or default) the history from the
persisted string, then run the round. -/
def run (traderData : String) (decoded : Except Unit HistMap)
    (order_depths : List (String × OrderDepth))
    (position : List (String × ℤ)) :
    List (String × List Order) × ℤ × HistMap :=
  runWithHist (restoreHist traderData decoded) order_depths position

end Trader2

section Helpers

theorem clampBounds (c : ℤ) : 3 ≤ min (max 3 c) 20 ∧ min (max 3 c) 20 ≤ 20 :=
  ⟨le_min (le_max_left 3 c) (by norm_num), min_le_right _ _⟩

end Helpers

/-- C10: `compute_order_size` (both the `trader3.py` and the
`trader_round2.py` version) never reads its declared `current_position`
parameter: any two values of that argument, with all other arguments fixed,
yield the same order size. -/
theorem C10_order_size_position_noninterference :
    ∀ (product : String) (recent : List ℝ) (od : OrderDepth) (fv pos1 pos2 : ℝ),
      Trader3.compute_order_size product recent od pos1 fv =
        Trader3.compute_order_size product recent od pos2 fv ∧
      Round2.compute_order_size product recent od pos1 fv =
        Round2.compute_order_size product recent od pos2 fv :=
  fun _ _ _ _ _ _ => ⟨rfl, rfl⟩

/-- C8: `compute_order_size` (both versions) returns the minimal default 1
on an empty price window, and for every non-empty window its result lies in
the clamp range [3, 20], whatever the order book, declared current position
and fair value are. -/
theorem C8_order_size_clamped :
    ∀ (product : String) (od : OrderDepth) (pos fv : ℝ),
      Trader3.compute_order_size product [] od pos fv = 1 ∧
      Round2.compute_order_size product [] od pos fv = 1 ∧
      ∀ recent : List ℝ, recent ≠ [] →
        (3 ≤ Trader3.compute_order_size product recent od pos fv ∧
          Trader3.compute_order_size product recent od pos fv ≤ 20) ∧
        (3 ≤ Round2.compute_order_size product recent od pos fv ∧
          Round2.compute_order_size product recent od pos fv ≤ 20) := by
  intro product od pos fv
  refine ⟨rfl, rfl, ?_⟩
  intro recent hne
  constructor
  · unfold Trader3.compute_order_size
    rw [if_neg hne]
    exact clampBounds _
  · unfold Round2.compute_order_size
    rw [if_neg hne]
    exact clampBounds _

/-- Witness for C8 at the concrete input `product = "KELP"`,
`recent = [1]`, empty book, position 0, fair value 0. -/
theorem C8_order_size_clamped_witness :
    Trader3.compute_order_size "KELP" [] ⟨[], []⟩ 0 0 = 1 ∧
    3 ≤ Trader3.compute_order_size "KELP" [1] ⟨[], []⟩ 0 0 ∧
    Trader3.compute_order_size "KELP" [1] ⟨[], []⟩ 0 0 ≤ 20 ∧
    3 ≤ Round2.compute_order_size "KELP" [1] ⟨[], []⟩ 0 0 ∧
    Round2.compute_order_size "KELP" [1] ⟨[], []⟩ 0 0 ≤ 20 := by
  obtain ⟨h1, _, h3⟩ := C8_order_size_clamped "KELP" ⟨[], []⟩ 0 0
  obtain ⟨⟨a1, a2⟩, b1, b2⟩ := h3 [1] (by simp)
  exact ⟨h1, a1, a2, b1, b2⟩

/-- C9: when the persisted state string handed to `trader2.py`'s
`Trader.run` fails to decode (`jsonpickle.decode` raises, modelled by
`Except.error`), the restore step silently installs the documented default
price history and the round completes exactly as it would with no prior
state: the same total order/conversion/state triple is produced, so the
failure never reaches the caller. -/
theorem C9_decode_failure_falls_back :
    ∀ (td : String) (ods : List (String × OrderDepth)) (pos : List (String × ℤ)),
      Trader2.restoreHist td (Except.error ()) = Trader2.defaultHist ∧
      Trader2.run td (Except.error ()) ods pos =
        Trader2.runWithHist Trader2.defaultHist ods pos ∧
      (Trader2.run td (Except.error ()) ods pos).2.2 = Trader2.defaultHist := by
  intro td ods pos
  have hrestore : Trader2.restoreHist td (Except.error ()) = Trader2.defaultHist := by
    unfold Trader2.restoreHist
    rcases eq_or_ne td "" with h | h
    · simp [h]
    · simp [h]
  refine ⟨hrestore, ?_, ?_⟩
  · unfold Trader2.run
    rw [hrestore]
  · unfold Trader2.run
    rw [hrestore]
    rfl

/-- C6: the rolling-price-store update keeps every window at length at most
`WINDOW_SIZE = 20`; on an appended trade the new window is a suffix of the
old window extended by the new price (so overflow evicts the oldest entries
first, and nothing is dropped while the extended window still fits); and a
round with no market trade for the product leaves the window unchanged. -/
theorem C6_window_bounded :
    ∀ (w trades : List ℝ),
      (w.length ≤ WINDOW_SIZE → (updateWindow w trades).length ≤ WINDOW_SIZE) ∧
      (trades = [] → updateWindow w trades = w) ∧
      (trades ≠ [] →
        (updateWindow w trades).length ≤ WINDOW_SIZE ∧
        (updateWindow w trades) <:+ (w ++ [trades.getLastD 0]) ∧
        ((w ++ [trades.getLastD 0]).length ≤ WINDOW_SIZE →
          updateWindow w trades = w ++ [trades.getLastD 0])) := by
  intro w trades
  match trades with
  | [] =>
    refine ⟨fun h => h, fun _ => rfl, fun h => absurd rfl h⟩
  | t :: ts =>
    have hupd : updateWindow w (t :: ts) =
        lastN WINDOW_SIZE (w ++ [(t :: ts).getLastD 0]) := rfl
    have hlen : (lastN WINDOW_SIZE (w ++ [(t :: ts).getLastD 0])).length ≤ WINDOW_SIZE := by
      unfold lastN
      rw [List.length_drop]
      omega
    refine ⟨fun _ => hupd ▸ hlen, fun h => absurd h (by simp), fun _ => ?_⟩
    refine ⟨hupd ▸ hlen, ?_, ?_⟩
    · rw [hupd]
      unfold lastN
      exact List.drop_suffix _ _
    · intro hfits
      rw [hupd]
      unfold lastN
      have : (w ++ [(t :: ts).getLastD 0]).length - WINDOW_SIZE = 0 := by omega
      rw [this, List.drop_zero]

/-- Witness for C6 at concrete inputs: no trade leaves `[1, 2]` unchanged,
and appending the trade price 5 to `[1, 2]` keeps the window within bounds
and produces a suffix of `[1, 2, 5]`. -/
theorem C6_window_bounded_witness :
    updateWindow [1, 2] [] = [1, 2] ∧
    (updateWindow [1, 2] [5]).length ≤ WINDOW_SIZE ∧
    (updateWindow [1, 2] [5]) <:+ ([1, 2] ++ [([(5 : ℝ)].getLastD 0)]) ∧
    updateWindow [1, 2] [5] = [1, 2] ++ [([(5 : ℝ)].getLastD 0)] := by
  obtain ⟨_, h2, _⟩ := C6_window_bounded [1, 2] []
  obtain ⟨_, _, h6⟩ := C6_window_bounded ([1, 2] : List ℝ) [5]
  obtain ⟨b1, b2, b3⟩ := h6 (by simp)
  exact ⟨h2 rfl, b1, b2, b3 (by simp [WINDOW_SIZE])⟩

/-- Constant `conversion_limit = 5` of `trader_round2.py` line 203. -/
def conversion_limit : ℤ := 5

/-- C5: for a composite product whose book has both sides, with
`mid = (bestBid + bestAsk) / 2` and intrinsic value the sum-of-parts fair
value: `mid < 0.95 * intrinsic` yields the signal `+conversion_limit`
(break the basket), `mid > 1.05 * intrinsic` yields `-conversion_limit`
(assemble the basket; since the source tests this in an `elif`, the
assemble clause is stated for non-negative intrinsic values, where the two
thresholds cannot both fire), and otherwise no signal is recorded — for both
`PICNIC_BASKET1` (intrinsic `6c + 3j + d`) and `PICNIC_BASKET2`
(intrinsic `4c + 2j`). -/
theorem C5_basket_conversion_trichotomy :
    ∀ (od : OrderDepth) (c j d : ℝ),
      od.buy_orders ≠ [] → od.sell_orders ≠ [] →
      (((maxKeys od.buy_orders : ℝ) + (minKeys od.sell_orders : ℝ)) / 2 <
          (0.95 : ℝ) * Round2.basket1_fv c j d →
        Round2.basketConversionSignal od (Round2.basket1_fv c j d) conversion_limit =
          some conversion_limit) ∧
      (0 ≤ Round2.basket1_fv c j d →
        ((maxKeys od.buy_orders : ℝ) + (minKeys od.sell_orders : ℝ)) / 2 >
          (1.05 : ℝ) * Round2.basket1_fv c j d →
        Round2.basketConversionSignal od (Round2.basket1_fv c j d) conversion_limit =
          some (-conversion_limit)) ∧
      ((0.95 : ℝ) * Round2.basket1_fv c j d ≤
          ((maxKeys od.buy_orders : ℝ) + (minKeys od.sell_orders : ℝ)) / 2 →
        ((maxKeys od.buy_orders : ℝ) + (minKeys od.sell_orders : ℝ)) / 2 ≤
          (1.05 : ℝ) * Round2.basket1_fv c j d →
        Round2.basketConversionSignal od (Round2.basket1_fv c j d) conversion_limit =
          none) ∧
      (((maxKeys od.buy_orders : ℝ) + (minKeys od.sell_orders : ℝ)) / 2 <
          (0.95 : ℝ) * Round2.basket2_fv c j →
        Round2.basketConversionSignal od (Round2.basket2_fv c j) conversion_limit =
          some conversion_limit) ∧
      (0 ≤ Round2.basket2_fv c j →
        ((maxKeys od.buy_orders : ℝ) + (minKeys od.sell_orders : ℝ)) / 2 >
          (1.05 : ℝ) * Round2.basket2_fv c j →
        Round2.basketConversionSignal od (Round2.basket2_fv c j) conversion_limit =
          some (-conversion_limit)) ∧
      ((0.95 : ℝ) * Round2.basket2_fv c j ≤
          ((maxKeys od.buy_orders : ℝ) + (minKeys od.sell_orders : ℝ)) / 2 →
        ((maxKeys od.buy_orders : ℝ) + (minKeys od.sell_orders : ℝ)) / 2 ≤
          (1.05 : ℝ) * Round2.basket2_fv c j →
        Round2.basketConversionSignal od (Round2.basket2_fv c j) conversion_limit =
          none) := by
  intro od c j d hb hs
  have hblock : ∀ i : ℝ,
      Round2.basketConversionSignal od i conversion_limit =
        if ((maxKeys od.buy_orders : ℝ) + (minKeys od.sell_orders : ℝ)) / 2 <
            (0.95 : ℝ) * i then some conversion_limit
        else if ((maxKeys od.buy_orders : ℝ) + (minKeys od.sell_orders : ℝ)) / 2 >
            (1.05 : ℝ) * i then some (-conversion_limit)
        else none := by
    intro i
    unfold Round2.basketConversionSignal
    rw [if_pos ⟨hb, hs⟩]
  rw [hblock, hblock]
  refine ⟨fun h => ?_, fun h0 h => ?_, fun h1 h2 => ?_, fun h => ?_, fun h0 h => ?_,
    fun h1 h2 => ?_⟩ <;> split_ifs <;> first | rfl | linarith

/-- Witness for C5 at Scenario C of the specification: intrinsic 1000
(constituent fair values 100 each), best bid 900, best ask 920, so the mid
910 is below 950 and the basket-break signal `+5` fires. -/
theorem C5_basket_conversion_trichotomy_witness :
    Round2.basketConversionSignal ⟨[(900, 10)], [(920, -10)]⟩
      (Round2.basket1_fv 100 100 100) conversion_limit = some conversion_limit := by
  obtain ⟨h1, _⟩ :=
    C5_basket_conversion_trichotomy ⟨[(900, 10)], [(920, -10)]⟩ 100 100 100
      (by simp) (by simp)
  apply h1
  have hmax : maxKeys [((900 : ℤ), 10)] = 900 := rfl
  have hmin : minKeys [((920 : ℤ), -10)] = 920 := rfl
  rw [hmax, hmin]
  unfold Round2.basket1_fv
  norm_num

/-- Python `min(prices)` of a non-empty list (0 on empty, never used there). -/
def listMin : List ℝ → ℝ
  | [] => 0
  | p :: ps => ps.foldl min p

/-- Python `max(prices)` of a non-empty list (0 on empty, never used there). -/
def listMax : List ℝ → ℝ
  | [] => 0
  | p :: ps => ps.foldl max p

theorem foldlMin_le_init : ∀ (ps : List ℝ) (a : ℝ), ps.foldl min a ≤ a := by
  intro ps
  induction ps with
  | nil => intro a; exact le_refl a
  | cons q ps ih =>
    intro a
    calc (q :: ps).foldl min a = ps.foldl min (min a q) := rfl
    _ ≤ min a q := ih (min a q)
    _ ≤ a := min_le_left a q

theorem foldlMin_le_mem : ∀ (ps : List ℝ) (a q : ℝ), q ∈ ps → ps.foldl min a ≤ q := by
  intro ps
  induction ps with
  | nil => intro a q hq; exact absurd hq (List.not_mem_nil q)
  | cons r ps ih =>
    intro a q hq
    rcases List.mem_cons.mp hq with h | h
    · subst h
      calc (q :: ps).foldl min a = ps.foldl min (min a q) := rfl
      _ ≤ min a q := foldlMin_le_init ps (min a q)
      _ ≤ q := min_le_right a q
    · exact ih (min a r) q h

theorem init_le_foldlMax : ∀ (ps : List ℝ) (a : ℝ), a ≤ ps.foldl max a := by
  intro ps
  induction ps with
  | nil => intro a; exact le_refl a
  | cons q ps ih =>
    intro a
    calc a ≤ max a q := le_max_left a q
    _ ≤ ps.foldl max (max a q) := ih (max a q)
    _ = (q :: ps).foldl max a := rfl

theorem mem_le_foldlMax : ∀ (ps : List ℝ) (a q : ℝ), q ∈ ps → q ≤ ps.foldl max a := by
  intro ps
  induction ps with
  | nil => intro a q hq; exact absurd hq (List.not_mem_nil q)
  | cons r ps ih =>
    intro a q hq
    rcases List.mem_cons.mp hq with h | h
    · subst h
      calc q ≤ max a q := le_max_right a q
      _ ≤ ps.foldl max (max a q) := init_le_foldlMax ps (max a q)
      _ = (q :: ps).foldl max a := rfl
    · exact ih (max a r) q h

theorem ewmaStep_bounds :
    ∀ (ps : List ℝ) (a lo hi alpha : ℝ), 0 < alpha → alpha ≤ 1 →
      lo ≤ a → a ≤ hi → (∀ q ∈ ps, lo ≤ q ∧ q ≤ hi) →
      lo ≤ ps.foldl (fun avg q => alpha * q + (1 - alpha) * avg) a ∧
        ps.foldl (fun avg q => alpha * q + (1 - alpha) * avg) a ≤ hi := by
  intro ps
  induction ps with
  | nil => intro a lo hi alpha _ _ hla hah _; exact ⟨hla, hah⟩
  | cons q ps ih =>
    intro a lo hi alpha ha0 ha1 hla hah hmem
    obtain ⟨hq1, hq2⟩ := hmem q (List.mem_cons_self q ps)
    have hstep_lo : lo ≤ alpha * q + (1 - alpha) * a := by
      have h1 : alpha * lo ≤ alpha * q := mul_le_mul_of_nonneg_left hq1 ha0.le
      have h2 : (1 - alpha) * lo ≤ (1 - alpha) * a :=
        mul_le_mul_of_nonneg_left hla (by linarith)
      nlinarith
    have hstep_hi : alpha * q + (1 - alpha) * a ≤ hi := by
      have h1 : alpha * q ≤ alpha * hi := mul_le_mul_of_nonneg_left hq2 ha0.le
      have h2 : (1 - alpha) * a ≤ (1 - alpha) * hi :=
        mul_le_mul_of_nonneg_left hah (by linarith)
      nlinarith
    exact ih (alpha * q + (1 - alpha) * a) lo hi alpha ha0 ha1 hstep_lo hstep_hi
      (fun r hr => hmem r (List.mem_cons_of_mem q hr))

/-- C7: `ewma` returns 0 on the empty sequence and the single price itself
on a singleton, for every smoothing factor; and for every non-empty price
sequence and every `alpha` in (0, 1] the result lies between the minimum
and the maximum of the sequence. -/
theorem C7_ewma_bounds :
    (∀ alpha : ℝ, ewma [] alpha = 0) ∧
    (∀ p alpha : ℝ, ewma [p] alpha = p) ∧
    ∀ (p : ℝ) (ps : List ℝ) (alpha : ℝ), 0 < alpha → alpha ≤ 1 →
      listMin (p :: ps) ≤ ewma (p :: ps) alpha ∧
        ewma (p :: ps) alpha ≤ listMax (p :: ps) := by
  refine ⟨fun _ => rfl, fun _ _ => rfl, ?_⟩
  intro p ps alpha ha0 ha1
  have hlo_p : listMin (p :: ps) ≤ p := foldlMin_le_init ps p
  have hhi_p : p ≤ listMax (p :: ps) := init_le_foldlMax ps p
  have hmem : ∀ q ∈ ps, listMin (p :: ps) ≤ q ∧ q ≤ listMax (p :: ps) :=
    fun q hq => ⟨foldlMin_le_mem ps p q hq, mem_le_foldlMax ps p q hq⟩
  exact ewmaStep_bounds ps p (listMin (p :: ps)) (listMax (p :: ps)) alpha
    ha0 ha1 hlo_p hhi_p hmem

/-- Witness for C7 at the concrete sequence `[3, 1]` with `alpha = 1/2`. -/
theorem C7_ewma_bounds_witness :
    ewma [] (1/2 : ℝ) = 0 ∧ ewma [(7 : ℝ)] (1/2) = 7 ∧
    listMin [(3 : ℝ), 1] ≤ ewma [(3 : ℝ), 1] (1/2) ∧
    ewma [(3 : ℝ), 1] (1/2) ≤ listMax [(3 : ℝ), 1] := by
  obtain ⟨h1, h2, h3⟩ := C7_ewma_bounds
  obtain ⟨b1, b2⟩ := h3 3 [1] (1/2) (by norm_num) (by norm_num)
  exact ⟨h1 (1/2), h2 7 (1/2), b1, b2⟩

theorem pyRound_between (x : ℝ) : ⌊x⌋ ≤ pyRound x ∧ pyRound x ≤ ⌊x⌋ + 1 := by
  unfold pyRound
  split_ifs <;> omega

theorem pyRound_mono {x y : ℝ} (h : x ≤ y) : pyRound x ≤ pyRound y := by
  rcases lt_or_le ⌊x⌋ ⌊y⌋ with hf | hf
  · calc pyRound x ≤ ⌊x⌋ + 1 := (pyRound_between x).2
    _ ≤ ⌊y⌋ := by omega
    _ ≤ pyRound y := (pyRound_between y).1
  · have hfe : ⌊x⌋ = ⌊y⌋ := le_antisymm (Int.floor_le_floor h) hf
    have hfr : x - ⌊x⌋ ≤ y - ⌊y⌋ := by
      rw [hfe] at *
      linarith
    unfold pyRound
    rw [hfe] at *
    split_ifs <;> first | omega | linarith

/-- C4 (amended): every spread used for quoting is at least 1 (the source
floors it with `max(1, ...)`), and consequently the emitted integer bid
price never exceeds the emitted integer ask price; strictness can fail
because Python's round-half-to-even may collapse `fv - 1/2` and `fv + 1/2`
to the same integer (see the counterexample). -/
theorem C4_spread_at_least_one :
    (∀ (product : String) (recent : List ℝ),
      1 ≤ (Trader3.fairAndSpread product recent).2) ∧
    (∀ (cw jw dw : List ℝ) (product : String),
      1 ≤ Round2.spreadOf cw jw dw product) ∧
    ∀ (fv s : ℝ), 1 ≤ s → pyRound (fv - s / 2) ≤ pyRound (fv + s / 2) := by
  refine ⟨?_, ?_, ?_⟩
  · intro product recent
    unfold Trader3.fairAndSpread
    split_ifs <;> simp [le_max_left]
  · intro cw jw dw product
    unfold Round2.spreadOf
    split_ifs <;> simp [le_max_left]
  · intro fv s hs
    exact pyRound_mono (by linarith)

/-- Witness for C4 at fair value 2 and spread 1. -/
theorem C4_spread_at_least_one_witness :
    1 ≤ (Trader3.fairAndSpread "RAINFOREST_RESIN" []).2 ∧
    1 ≤ Round2.spreadOf [] [] [] "CROISSANTS" ∧
    pyRound ((2 : ℝ) - 1 / 2) ≤ pyRound ((2 : ℝ) + 1 / 2) := by
  obtain ⟨h1, h2, h3⟩ := C4_spread_at_least_one
  exact ⟨h1 "RAINFOREST_RESIN" [], h2 [] [] [] "CROISSANTS", h3 2 1 (le_refl 1)⟩

/-- Counterexample to C4 as stated: for `RAINFOREST_RESIN` with price window
`[2, 2]` the dispersion is zero, the spread is floored to exactly 1, and
round-half-to-even sends both `2 - 1/2` and `2 + 1/2` to 2, so the emitted
integer bid price equals the emitted integer ask price instead of being
strictly below it. -/
theorem C4_counterexample :
    (Trader3.fairAndSpread "RAINFOREST_RESIN" [2, 2]).2 = 1 ∧
    pyRound ((Trader3.fairAndSpread "RAINFOREST_RESIN" [2, 2]).1 -
        (Trader3.fairAndSpread "RAINFOREST_RESIN" [2, 2]).2 / 2) = 2 ∧
    pyRound ((Trader3.fairAndSpread "RAINFOREST_RESIN" [2, 2]).1 +
        (Trader3.fairAndSpread "RAINFOREST_RESIN" [2, 2]).2 / 2) = 2 ∧
    ¬ (pyRound ((Trader3.fairAndSpread "RAINFOREST_RESIN" [2, 2]).1 -
          (Trader3.fairAndSpread "RAINFOREST_RESIN" [2, 2]).2 / 2) <
        pyRound ((Trader3.fairAndSpread "RAINFOREST_RESIN" [2, 2]).1 +
          (Trader3.fairAndSpread "RAINFOREST_RESIN" [2, 2]).2 / 2)) := by
  have hstd : rolling_std [2, 2] = 0 := by
    unfold rolling_std listMean
    norm_num
  have hew : ewma [(2 : ℝ), 2] (1/10) = 2 := by
    unfold ewma
    norm_num
  have hfs : Trader3.fairAndSpread "RAINFOREST_RESIN" [2, 2] = (2, 1) := by
    unfold Trader3.fairAndSpread
    rw [if_pos rfl, hstd, hew]
    norm_num
  rw [hfs]
  have hbid : pyRound ((2 : ℝ) - 1 / 2) = 2 := by
    unfold pyRound
    have h : ⌊(2 : ℝ) - 1/2⌋ = 1 := by norm_num
    rw [h]
    norm_num
  have hask : pyRound ((2 : ℝ) + 1 / 2) = 2 := by
    unfold pyRound
    have h : ⌊(2 : ℝ) + 1/2⌋ = 2 := by norm_num
    rw [h]
    norm_num
  refine ⟨rfl, ?_, ?_, ?_⟩
  · exact hbid
  · exact hask
  · simp only [hbid, hask]
    omega

theorem intInit_le_foldlMax : ∀ (ps : List ℤ) (a : ℤ), a ≤ ps.foldl max a := by
  intro ps
  induction ps with
  | nil => intro a; exact le_refl a
  | cons q ps ih =>
    intro a
    calc a ≤ max a q := le_max_left a q
    _ ≤ ps.foldl max (max a q) := ih (max a q)
    _ = (q :: ps).foldl max a := rfl

theorem intMem_le_foldlMax : ∀ (ps : List ℤ) (a q : ℤ), q ∈ ps → q ≤ ps.foldl max a := by
  intro ps
  induction ps with
  | nil => intro a q hq; exact absurd hq (List.not_mem_nil q)
  | cons r ps ih =>
    intro a q hq
    rcases List.mem_cons.mp hq with h | h
    · subst h
      calc q ≤ max a q := le_max_right a q
      _ ≤ ps.foldl max (max a q) := intInit_le_foldlMax ps (max a q)
      _ = (q :: ps).foldl max a := rfl
    · exact ih (max a r) q h

theorem intFoldlMax_cases : ∀ (ps : List ℤ) (a : ℤ),
    ps.foldl max a = a ∨ ps.foldl max a ∈ ps := by
  intro ps
  induction ps with
  | nil => intro a; exact Or.inl rfl
  | cons r ps ih =>
    intro a
    have hstep : (r :: ps).foldl max a = ps.foldl max (max a r) := rfl
    rcases ih (max a r) with h | h
    · rcases max_choice a r with hm | hm
      · exact Or.inl (by rw [hstep, h, hm])
      · exact Or.inr (by rw [hstep, h, hm]; exact List.mem_cons_self r ps)
    · exact Or.inr (by rw [hstep]; exact List.mem_cons_of_mem r h)

theorem intFoldlMin_le_init : ∀ (ps : List ℤ) (a : ℤ), ps.foldl min a ≤ a := by
  intro ps
  induction ps with
  | nil => intro a; exact le_refl a
  | cons q ps ih =>
    intro a
    calc (q :: ps).foldl min a = ps.foldl min (min a q) := rfl
    _ ≤ min a q := ih (min a q)
    _ ≤ a := min_le_left a q

theorem intFoldlMin_le_mem : ∀ (ps : List ℤ) (a q : ℤ), q ∈ ps → ps.foldl min a ≤ q := by
  intro ps
  induction ps with
  | nil => intro a q hq; exact absurd hq (List.not_mem_nil q)
  | cons r ps ih =>
    intro a q hq
    rcases List.mem_cons.mp hq with h | h
    · subst h
      calc (q :: ps).foldl min a = ps.foldl min (min a q) := rfl
      _ ≤ min a q := intFoldlMin_le_init ps (min a q)
      _ ≤ q := min_le_right a q
    · exact ih (min a r) q h

theorem intFoldlMin_cases : ∀ (ps : List ℤ) (a : ℤ),
    ps.foldl min a = a ∨ ps.foldl min a ∈ ps := by
  intro ps
  induction ps with
  | nil => intro a; exact Or.inl rfl
  | cons r ps ih =>
    intro a
    have hstep : (r :: ps).foldl min a = ps.foldl min (min a r) := rfl
    rcases ih (min a r) with h | h
    · rcases min_choice a r with hm | hm
      · exact Or.inl (by rw [hstep, h, hm])
      · exact Or.inr (by rw [hstep, h, hm]; exact List.mem_cons_self r ps)
    · exact Or.inr (by rw [hstep]; exact List.mem_cons_of_mem r h)

theorem maxVals_spec (l : List (ℤ × ℤ)) (h : l ≠ []) :
    maxVals l ∈ l.map Prod.snd ∧ ∀ q ∈ l.map Prod.snd, q ≤ maxVals l := by
  match l with
  | [] => exact absurd rfl h
  | p :: t =>
    have hval : maxVals (p :: t) = (t.map Prod.snd).foldl max p.2 := by
      unfold maxVals
      rw [List.map_cons, List.max?_cons']
      rfl
    constructor
    · rw [hval, List.map_cons]
      rcases intFoldlMax_cases (t.map Prod.snd) p.2 with hc | hc
      · rw [hc]; exact List.mem_cons_self _ _
      · exact List.mem_cons_of_mem _ hc
    · intro q hq
      rw [List.map_cons] at hq
      rw [hval]
      rcases List.mem_cons.mp hq with hh | hh
      · subst hh; exact intInit_le_foldlMax _ _
      · exact intMem_le_foldlMax _ _ _ hh

theorem minVals_spec (l : List (ℤ × ℤ)) (h : l ≠ []) :
    minVals l ∈ l.map Prod.snd ∧ ∀ q ∈ l.map Prod.snd, minVals l ≤ q := by
  match l with
  | [] => exact absurd rfl h
  | p :: t =>
    have hval : minVals (p :: t) = (t.map Prod.snd).foldl min p.2 := by
      unfold minVals
      rw [List.map_cons, List.min?_cons']
      rfl
    constructor
    · rw [hval, List.map_cons]
      rcases intFoldlMin_cases (t.map Prod.snd) p.2 with hc | hc
      · rw [hc]; exact List.mem_cons_self _ _
      · exact List.mem_cons_of_mem _ hc
    · intro q hq
      rw [List.map_cons] at hq
      rw [hval]
      rcases List.mem_cons.mp hq with hh | hh
      · subst hh; exact intFoldlMin_le_init _ _
      · exact intFoldlMin_le_mem _ _ _ hh

/-- Spec-side definition, following the claim wording of C3: the "best
resting bid size" is the size (magnitude of the resting quantity) of the
entry at the best — highest — bid price. -/
def specBestBidSize (buys : List (ℤ × ℤ)) : ℤ := |(buys.lookup (maxKeys buys)).getD 0|

/-- Spec-side definition, following the claim wording of C3: the "best
resting ask size" is the size (magnitude of the resting quantity) of the
entry at the best — lowest — ask price. -/
def specBestAskSize (sells : List (ℤ × ℤ)) : ℤ := |(sells.lookup (minKeys sells)).getD 0|

/-- Spec-side definition, following the claim wording of C3: average of the
best resting bid size and best resting ask size if both sides exist,
otherwise whichever single side's best resting size exists, otherwise the
base scale. -/
noncomputable def specLiquidityFactor (od : OrderDepth) (base_scale : ℝ) : ℝ :=
  if od.buy_orders ≠ [] ∧ od.sell_orders ≠ [] then
    ((specBestBidSize od.buy_orders : ℝ) + (specBestAskSize od.sell_orders : ℝ)) / 2
  else if od.buy_orders ≠ [] then (specBestBidSize od.buy_orders : ℝ)
  else if od.sell_orders ≠ [] then (specBestAskSize od.sell_orders : ℝ)
  else base_scale

/-- Counterexample to C3 as stated: on a bid-only book `{10: 5, 9: 7}` the
best (highest-price) resting bid has size 5, but the code's liquidity
factor is `max(buy_orders.values()) = 7` — the maximum quantity anywhere on
the side, not the quantity at the best price. -/
theorem C3_counterexample :
    liquidityFactor ⟨[(10, 5), (9, 7)], []⟩ 5 = 7 ∧
    specLiquidityFactor ⟨[(10, 5), (9, 7)], []⟩ 5 = 5 ∧
    liquidityFactor ⟨[(10, 5), (9, 7)], []⟩ 5 ≠
      specLiquidityFactor ⟨[(10, 5), (9, 7)], []⟩ 5 := by
  have h1 : liquidityFactor ⟨[(10, 5), (9, 7)], []⟩ 5 = 7 := by
    unfold liquidityFactor
    have hmv : maxVals [((10 : ℤ), (5 : ℤ)), (9, 7)] = 7 := rfl
    rw [if_neg (by simp), if_pos (by simp), hmv]
    norm_num
  have h2 : specLiquidityFactor ⟨[(10, 5), (9, 7)], []⟩ 5 = 5 := by
    unfold specLiquidityFactor
    have hbs : specBestBidSize [((10 : ℤ), (5 : ℤ)), (9, 7)] = 5 := rfl
    norm_num [hbs]
  refine ⟨h1, h2, ?_⟩
  rw [h1, h2]
  norm_num

/-- C3 (amended): the code's liquidity factor is built from the extreme
quantities of each whole book side, not from the top-of-book sizes: with
both sides present it is the average of the greatest bid-side quantity and
the least (signed) ask-side quantity; with a single side present it is that
side's greatest bid quantity (respectively least ask quantity); with an
empty book it is the base scale. -/
theorem C3_liquidity_factor_amended :
    ∀ (od : OrderDepth) (b : ℝ),
      (od.buy_orders ≠ [] → od.sell_orders ≠ [] →
        (maxVals od.buy_orders ∈ od.buy_orders.map Prod.snd ∧
          ∀ q ∈ od.buy_orders.map Prod.snd, q ≤ maxVals od.buy_orders) ∧
        (minVals od.sell_orders ∈ od.sell_orders.map Prod.snd ∧
          ∀ q ∈ od.sell_orders.map Prod.snd, minVals od.sell_orders ≤ q) ∧
        liquidityFactor od b =
          ((maxVals od.buy_orders : ℝ) + (minVals od.sell_orders : ℝ)) / 2) ∧
      (od.buy_orders ≠ [] → od.sell_orders = [] →
        (maxVals od.buy_orders ∈ od.buy_orders.map Prod.snd ∧
          ∀ q ∈ od.buy_orders.map Prod.snd, q ≤ maxVals od.buy_orders) ∧
        liquidityFactor od b = (maxVals od.buy_orders : ℝ)) ∧
      (od.buy_orders = [] → od.sell_orders ≠ [] →
        (minVals od.sell_orders ∈ od.sell_orders.map Prod.snd ∧
          ∀ q ∈ od.sell_orders.map Prod.snd, minVals od.sell_orders ≤ q) ∧
        liquidityFactor od b = (minVals od.sell_orders : ℝ)) ∧
      (od.buy_orders = [] → od.sell_orders = [] → liquidityFactor od b = b) := by
  intro od b
  refine ⟨fun hb hs => ?_, fun hb hs => ?_, fun hb hs => ?_, fun hb hs => ?_⟩
  · refine ⟨maxVals_spec od.buy_orders hb, minVals_spec od.sell_orders hs, ?_⟩
    unfold liquidityFactor
    rw [if_pos ⟨hb, hs⟩]
  · refine ⟨maxVals_spec od.buy_orders hb, ?_⟩
    unfold liquidityFactor
    rw [if_neg (by simp [hs]), if_pos hb]
  · refine ⟨minVals_spec od.sell_orders hs, ?_⟩
    unfold liquidityFactor
    rw [if_neg (by simp [hb]), if_neg (by simp [hb]), if_pos hs]
  · unfold liquidityFactor
    rw [if_neg (by simp [hb]), if_neg (by simp [hb]), if_neg (by simp [hs])]

/-- Witness for C3 (amended) on the concrete two-sided book
`bids {10: 5, 9: 7}`, `asks {11: -4, 12: -6}`. -/
theorem C3_liquidity_factor_amended_witness :
    liquidityFactor ⟨[(10, 5), (9, 7)], [(11, -4), (12, -6)]⟩ 5 =
      ((maxVals [((10 : ℤ), (5 : ℤ)), (9, 7)] : ℝ) +
        (minVals [((11 : ℤ), (-4 : ℤ)), (12, -6)] : ℝ)) / 2 ∧
    liquidityFactor ⟨[(10, 5), (9, 7)], []⟩ 5 = (maxVals [((10 : ℤ), (5 : ℤ)), (9, 7)] : ℝ) ∧
    liquidityFactor ⟨[], []⟩ 5 = 5 := by
  obtain ⟨h1, _, _, _⟩ :=
    C3_liquidity_factor_amended ⟨[(10, 5), (9, 7)], [(11, -4), (12, -6)]⟩ 5
  obtain ⟨_, h2, _, _⟩ := C3_liquidity_factor_amended ⟨[(10, 5), (9, 7)], []⟩ 5
  obtain ⟨_, _, _, h4⟩ := C3_liquidity_factor_amended ⟨[], []⟩ 5
  obtain ⟨_, _, e1⟩ := h1 (by simp) (by simp)
  obtain ⟨_, e2⟩ := h2 (by simp) rfl
  exact ⟨e1, e2, h4 rfl rfl⟩

theorem t3_ordersFor_eq (product : String)
    (h : product = "RAINFOREST_RESIN" ∨ product = "KELP" ∨ product = "SQUID_INK")
    (recent : List ℝ) (od : OrderDepth) (pos : ℤ) :
    Trader3.ordersFor product recent od pos =
      quoteBlock product LIMIT pos
        (Trader3.compute_order_size product recent od
          (Trader3.fairAndSpread product recent).1 (pos : ℝ))
        (pyRound ((Trader3.fairAndSpread product recent).1 -
          (Trader3.fairAndSpread product recent).2 / 2))
        (pyRound ((Trader3.fairAndSpread product recent).1 +
          (Trader3.fairAndSpread product recent).2 / 2)) := by
  unfold Trader3.ordersFor
  rw [if_pos h]

theorem t3_ordersFor_eq_nil (product : String)
    (h : ¬(product = "RAINFOREST_RESIN" ∨ product = "KELP" ∨ product = "SQUID_INK"))
    (recent : List ℝ) (od : OrderDepth) (pos : ℤ) :
    Trader3.ordersFor product recent od pos = [] := by
  unfold Trader3.ordersFor
  rw [if_neg h]

theorem r2_ordersFor_eq (product : String)
    (h : product = "CROISSANTS" ∨ product = "JAMS" ∨ product = "DJEMBES" ∨
      product = "PICNIC_BASKET1" ∨ product = "PICNIC_BASKET2")
    (cw jw dw : List ℝ) (od : OrderDepth) (pos : ℤ) :
    Round2.ordersFor product cw jw dw od pos =
      quoteBlock product (POSITION_LIMITS product) pos
        (Round2.compute_order_size product
          (if product = "CROISSANTS" then cw
            else if product = "JAMS" then jw
            else if product = "DJEMBES" then dw
            else [Round2.fairValue cw jw dw product])
          od (pos : ℝ) (Round2.fairValue cw jw dw product))
        (pyRound (Round2.fairValue cw jw dw product -
          Round2.spreadOf cw jw dw product / 2))
        (pyRound (Round2.fairValue cw jw dw product +
          Round2.spreadOf cw jw dw product / 2)) := by
  unfold Round2.ordersFor
  rw [if_pos h]

theorem r2_ordersFor_eq_nil (product : String)
    (h : ¬(product = "CROISSANTS" ∨ product = "JAMS" ∨ product = "DJEMBES" ∨
      product = "PICNIC_BASKET1" ∨ product = "PICNIC_BASKET2"))
    (cw jw dw : List ℝ) (od : OrderDepth) (pos : ℤ) :
    Round2.ordersFor product cw jw dw od pos = [] := by
  unfold Round2.ordersFor
  rw [if_neg h]

theorem one_le_t3_order_size (product : String) (recent : List ℝ)
    (od : OrderDepth) (pos fv : ℝ) :
    1 ≤ Trader3.compute_order_size product recent od pos fv := by
  unfold Trader3.compute_order_size
  split
  · norm_num
  · exact le_trans (by norm_num) (clampBounds _).1

theorem one_le_r2_order_size (product : String) (recent : List ℝ)
    (od : OrderDepth) (pos fv : ℝ) :
    1 ≤ Round2.compute_order_size product recent od pos fv := by
  unfold Round2.compute_order_size
  split
  · norm_num
  · exact le_trans (by norm_num) (clampBounds _).1

theorem quoteBlock_ne_nil (product : String) (limit pos base bid ask : ℤ)
    (hb : 1 ≤ base) (h1 : 0 < limit - pos) (h2 : 0 < limit + pos) :
    quoteBlock product limit pos base bid ask ≠ [] := by
  simp only [quoteBlock]
  split_ifs <;> simp_all <;> omega

/-- Counterexample to C2 as stated: with a fresh engine (empty price
windows) and an order book that is empty on both sides, `trader3.py` still
emits a two-sided quote for `RAINFOREST_RESIN` (buy 1 at -1, sell 1 at 1):
the order-generation step never tests the book for emptiness, which only
defaults the liquidity factor inside the sizing function. -/
theorem C2_counterexample :
    Trader3.ordersFor "RAINFOREST_RESIN" [] ⟨[], []⟩ 0 =
      [⟨"RAINFOREST_RESIN", -1, 1⟩, ⟨"RAINFOREST_RESIN", 1, -1⟩] ∧
    Trader3.ordersFor "RAINFOREST_RESIN" [] ⟨[], []⟩ 0 ≠ [] := by
  have hstd : rolling_std [] = 1 := by
    unfold rolling_std
    norm_num
  have hfs : Trader3.fairAndSpread "RAINFOREST_RESIN" [] = (0, 2) := by
    unfold Trader3.fairAndSpread
    rw [if_pos rfl, hstd]
    norm_num [ewma]
  have hbase : Trader3.compute_order_size "RAINFOREST_RESIN" [] ⟨[], []⟩
      (Trader3.fairAndSpread "RAINFOREST_RESIN" []).1 (((0 : ℤ) : ℝ)) = 1 := by
    unfold Trader3.compute_order_size
    rw [if_pos rfl]
  have hbid : pyRound ((Trader3.fairAndSpread "RAINFOREST_RESIN" []).1 -
      (Trader3.fairAndSpread "RAINFOREST_RESIN" []).2 / 2) = -1 := by
    rw [hfs]
    show pyRound ((0 : ℝ) - 2 / 2) = -1
    unfold pyRound
    have h : ⌊(0 : ℝ) - 2 / 2⌋ = -1 := by norm_num
    rw [h]
    norm_num
  have hask : pyRound ((Trader3.fairAndSpread "RAINFOREST_RESIN" []).1 +
      (Trader3.fairAndSpread "RAINFOREST_RESIN" []).2 / 2) = 1 := by
    rw [hfs]
    show pyRound ((0 : ℝ) + 2 / 2) = 1
    unfold pyRound
    have h : ⌊(0 : ℝ) + 2 / 2⌋ = 1 := by norm_num
    rw [h]
    norm_num
  have horders : Trader3.ordersFor "RAINFOREST_RESIN" [] ⟨[], []⟩ 0 =
      [⟨"RAINFOREST_RESIN", -1, 1⟩, ⟨"RAINFOREST_RESIN", 1, -1⟩] := by
    rw [t3_ordersFor_eq "RAINFOREST_RESIN" (Or.inl rfl), hbase, hbid, hask]
    decide
  exact ⟨horders, by rw [horders]; simp⟩

theorem quoteBlock_two_sided (product : String) (limit pos base bid ask : ℤ)
    (hb : 1 ≤ base) (h1 : 0 < limit - pos) (h2 : 0 < limit + pos) :
    quoteBlock product limit pos base bid ask =
      [⟨product, bid, min base (limit - pos)⟩,
        ⟨product, ask, -(min base (limit + pos))⟩] ∧
      0 < min base (limit - pos) ∧ 0 < min base (limit + pos) := by
  have hbuy : 0 < min base (limit - pos) := lt_min (by omega) h1
  have hsell : 0 < min base (limit + pos) := lt_min (by omega) h2
  refine ⟨?_, hbuy, hsell⟩
  simp only [quoteBlock]
  rw [if_pos h1, if_pos h2, if_pos hbuy, if_pos hsell]
  rfl

theorem t3_book_only_via_liquidity (product : String) (recent : List ℝ)
    (od1 od2 : OrderDepth) (pos : ℤ)
    (h : ∀ b : ℝ, liquidityFactor od1 b = liquidityFactor od2 b) :
    Trader3.ordersFor product recent od1 pos =
      Trader3.ordersFor product recent od2 pos := by
  have hsize : ∀ p f : ℝ, Trader3.compute_order_size product recent od1 p f =
      Trader3.compute_order_size product recent od2 p f := by
    intro p f
    unfold Trader3.compute_order_size
    split
    · rfl
    · simp only [h]
  unfold Trader3.ordersFor
  split
  · simp only [hsize]
  · rfl

theorem r2_book_only_via_liquidity (product : String) (cw jw dw : List ℝ)
    (od1 od2 : OrderDepth) (pos : ℤ)
    (h : ∀ b : ℝ, liquidityFactor od1 b = liquidityFactor od2 b) :
    Round2.ordersFor product cw jw dw od1 pos =
      Round2.ordersFor product cw jw dw od2 pos := by
  have hsize : ∀ (recent : List ℝ) (p f : ℝ),
      Round2.compute_order_size product recent od1 p f =
        Round2.compute_order_size product recent od2 p f := by
    intro recent p f
    unfold Round2.compute_order_size
    split
    · rfl
    · simp only [h]
  unfold Round2.ordersFor
  split
  · simp only [hsize]
  · rfl

/-- C2 (amended): a product whose order book is empty on both sides is
still quoted.  On an empty book the liquidity factor defaults to the base
scale, and the order book reaches the quote step only through the
liquidity factor (two books with equal liquidity factors produce identical
orders), so emptiness has no other effect; whenever the current position is
strictly inside the limit the engine emits its regular two-sided quote:
exactly two orders on that product, a buy at `round(fv - spread/2)` and a
sell at `round(fv + spread/2)`.  Stated for the three `trader3.py`
products and the five `trader_round2.py` products. -/
theorem C2_amended_empty_book_still_quotes :
    ∀ (product : String) (recent cw jw dw : List ℝ) (pos : ℤ),
      (∀ b : ℝ, liquidityFactor ⟨[], []⟩ b = b) ∧
      (∀ od1 od2 : OrderDepth,
        (∀ b : ℝ, liquidityFactor od1 b = liquidityFactor od2 b) →
        Trader3.ordersFor product recent od1 pos =
            Trader3.ordersFor product recent od2 pos ∧
          Round2.ordersFor product cw jw dw od1 pos =
            Round2.ordersFor product cw jw dw od2 pos) ∧
      ((product = "RAINFOREST_RESIN" ∨ product = "KELP" ∨ product = "SQUID_INK") →
        -LIMIT < pos → pos < LIMIT →
        ∃ o1 o2 : Order,
          Trader3.ordersFor product recent ⟨[], []⟩ pos = [o1, o2] ∧
          o1.symbol = product ∧ o2.symbol = product ∧
          o1.price = pyRound ((Trader3.fairAndSpread product recent).1 -
            (Trader3.fairAndSpread product recent).2 / 2) ∧
          o2.price = pyRound ((Trader3.fairAndSpread product recent).1 +
            (Trader3.fairAndSpread product recent).2 / 2) ∧
          0 < o1.quantity ∧ o2.quantity < 0) ∧
      ((product = "CROISSANTS" ∨ product = "JAMS" ∨ product = "DJEMBES" ∨
          product = "PICNIC_BASKET1" ∨ product = "PICNIC_BASKET2") →
        -(POSITION_LIMITS product) < pos → pos < POSITION_LIMITS product →
        ∃ o1 o2 : Order,
          Round2.ordersFor product cw jw dw ⟨[], []⟩ pos = [o1, o2] ∧
          o1.symbol = product ∧ o2.symbol = product ∧
          o1.price = pyRound (Round2.fairValue cw jw dw product -
            Round2.spreadOf cw jw dw product / 2) ∧
          o2.price = pyRound (Round2.fairValue cw jw dw product +
            Round2.spreadOf cw jw dw product / 2) ∧
          0 < o1.quantity ∧ o2.quantity < 0) := by
  intro product recent cw jw dw pos
  refine ⟨fun b => ?_, fun od1 od2 hlf => ?_, fun h hlo hhi => ?_,
    fun h hlo hhi => ?_⟩
  · unfold liquidityFactor
    rw [if_neg (by simp), if_neg (by simp), if_neg (by simp)]
  · exact ⟨t3_book_only_via_liquidity product recent od1 od2 pos hlf,
      r2_book_only_via_liquidity product cw jw dw od1 od2 pos hlf⟩
  · rw [t3_ordersFor_eq product h]
    obtain ⟨heq, hbuy, hsell⟩ := quoteBlock_two_sided product LIMIT pos
      (Trader3.compute_order_size product recent ⟨[], []⟩
        (Trader3.fairAndSpread product recent).1 (pos : ℝ)) _ _
      (one_le_t3_order_size product recent ⟨[], []⟩ _ _) (by omega) (by omega)
    exact ⟨_, _, heq, rfl, rfl, rfl, rfl, hbuy, by dsimp only; omega⟩
  · rw [r2_ordersFor_eq product h]
    obtain ⟨heq, hbuy, hsell⟩ := quoteBlock_two_sided product
      (POSITION_LIMITS product) pos
      (Round2.compute_order_size product
        (if product = "CROISSANTS" then cw
          else if product = "JAMS" then jw
          else if product = "DJEMBES" then dw
          else [Round2.fairValue cw jw dw product])
        ⟨[], []⟩ (pos : ℝ) (Round2.fairValue cw jw dw product)) _ _
      (one_le_r2_order_size product _ ⟨[], []⟩ _ _) (by omega) (by omega)
    exact ⟨_, _, heq, rfl, rfl, rfl, rfl, hbuy, by dsimp only; omega⟩

/-- Witness for C2 (amended): with empty books, `KELP` at position 1 gets
exactly a buy and a sell order, and so does `CROISSANTS` at position 0;
the empty book's liquidity factor is the base scale 5. -/
theorem C2_amended_empty_book_still_quotes_witness :
    liquidityFactor ⟨[], []⟩ 5 = 5 ∧
    (∃ o1 o2 : Order,
      Trader3.ordersFor "KELP" [] ⟨[], []⟩ 1 = [o1, o2] ∧
      o1.symbol = "KELP" ∧ o2.symbol = "KELP" ∧
      o1.price = pyRound ((Trader3.fairAndSpread "KELP" []).1 -
        (Trader3.fairAndSpread "KELP" []).2 / 2) ∧
      o2.price = pyRound ((Trader3.fairAndSpread "KELP" []).1 +
        (Trader3.fairAndSpread "KELP" []).2 / 2) ∧
      0 < o1.quantity ∧ o2.quantity < 0) ∧
    (∃ o1 o2 : Order,
      Round2.ordersFor "CROISSANTS" [] [] [] ⟨[], []⟩ 0 = [o1, o2] ∧
      o1.symbol = "CROISSANTS" ∧ o2.symbol = "CROISSANTS" ∧
      o1.price = pyRound (Round2.fairValue [] [] [] "CROISSANTS" -
        Round2.spreadOf [] [] [] "CROISSANTS" / 2) ∧
      o2.price = pyRound (Round2.fairValue [] [] [] "CROISSANTS" +
        Round2.spreadOf [] [] [] "CROISSANTS" / 2) ∧
      0 < o1.quantity ∧ o2.quantity < 0) := by
  obtain ⟨hl, _, h3, _⟩ := C2_amended_empty_book_still_quotes "KELP" [] [] [] [] 1
  obtain ⟨_, _, _, h4⟩ :=
    C2_amended_empty_book_still_quotes "CROISSANTS" [] [] [] [] 0
  refine ⟨hl 5, h3 (Or.inr (Or.inl rfl)) (by decide) (by decide), ?_⟩
  exact h4 (Or.inl rfl) (by decide) (by decide)

theorem quoteBlock_bounds (product : String) (limit pos base bid ask : ℤ)
    (h1 : -limit ≤ pos) (h2 : pos ≤ limit) :
    (∀ o ∈ quoteBlock product limit pos base bid ask,
      (0 < o.quantity → o.quantity ≤ limit - pos) ∧
      (o.quantity < 0 → -o.quantity ≤ limit + pos)) ∧
    -limit ≤ pos + sumQty (quoteBlock product limit pos base bid ask) ∧
    pos + sumQty (quoteBlock product limit pos base bid ask) ≤ limit := by
  simp only [quoteBlock, sumQty]
  split_ifs <;> simp_all <;> omega

theorem v1_orders_bounds (product : String) (fv : ℚ) (od : OrderDepth) (pos : ℤ)
    (h1 : -LIMIT ≤ pos) (h2 : pos ≤ LIMIT) :
    (∀ o ∈ TraderV1.ordersFor product fv od pos,
      (0 < o.quantity → o.quantity ≤ LIMIT - pos) ∧
      (o.quantity < 0 → -o.quantity ≤ LIMIT + pos)) ∧
    -LIMIT ≤ pos + sumQty (TraderV1.ordersFor product fv od pos) ∧
    pos + sumQty (TraderV1.ordersFor product fv od pos) ≤ LIMIT := by
  have habs : |(-LIMIT) - pos| = LIMIT + pos := by
    rw [abs_of_nonpos (by omega)]
    ring
  simp only [TraderV1.ordersFor, habs, sumQty]
  split_ifs <;> simp_all <;> omega

/-- C1: for every product and round, assuming the current position respects
its (symmetric) limit — the invariant the venue maintains — every emitted
buy quantity is at most `limit - position`, every emitted sell quantity is
at most `limit + position` in magnitude (so a side with no room gets no
order), and if every emitted order is fully filled the resulting position
stays within `[-limit, +limit]`.  Stated for the `trader3.py` quote step
(limit 50), the `trader_round2.py` quote step (per-product limits) and the
`trader.py` / `trader2.py` best-quote step (limit 50). -/
theorem C1_position_limits :
    ∀ (product : String) (recent cw jw dw : List ℝ) (od : OrderDepth)
      (pos : ℤ) (fv : ℚ),
      (-LIMIT ≤ pos → pos ≤ LIMIT →
        (∀ o ∈ Trader3.ordersFor product recent od pos,
          (0 < o.quantity → o.quantity ≤ LIMIT - pos) ∧
          (o.quantity < 0 → -o.quantity ≤ LIMIT + pos)) ∧
        -LIMIT ≤ pos + sumQty (Trader3.ordersFor product recent od pos) ∧
        pos + sumQty (Trader3.ordersFor product recent od pos) ≤ LIMIT) ∧
      (-(POSITION_LIMITS product) ≤ pos → pos ≤ POSITION_LIMITS product →
        (∀ o ∈ Round2.ordersFor product cw jw dw od pos,
          (0 < o.quantity → o.quantity ≤ POSITION_LIMITS product - pos) ∧
          (o.quantity < 0 → -o.quantity ≤ POSITION_LIMITS product + pos)) ∧
        -(POSITION_LIMITS product) ≤
          pos + sumQty (Round2.ordersFor product cw jw dw od pos) ∧
        pos + sumQty (Round2.ordersFor product cw jw dw od pos) ≤
          POSITION_LIMITS product) ∧
      (-LIMIT ≤ pos → pos ≤ LIMIT →
        (∀ o ∈ TraderV1.ordersFor product fv od pos,
          (0 < o.quantity → o.quantity ≤ LIMIT - pos) ∧
          (o.quantity < 0 → -o.quantity ≤ LIMIT + pos)) ∧
        -LIMIT ≤ pos + sumQty (TraderV1.ordersFor product fv od pos) ∧
        pos + sumQty (TraderV1.ordersFor product fv od pos) ≤ LIMIT) := by
  intro product recent cw jw dw od pos fv
  refine ⟨fun h1 h2 => ?_, fun h1 h2 => ?_, fun h1 h2 => ?_⟩
  · by_cases hp : product = "RAINFOREST_RESIN" ∨ product = "KELP" ∨
        product = "SQUID_INK"
    · rw [t3_ordersFor_eq product hp]
      exact quoteBlock_bounds product LIMIT pos _ _ _ h1 h2
    · rw [t3_ordersFor_eq_nil product hp]
      refine ⟨by simp, ?_, ?_⟩ <;> simp [sumQty] <;> omega
  · by_cases hp : product = "CROISSANTS" ∨ product = "JAMS" ∨
        product = "DJEMBES" ∨ product = "PICNIC_BASKET1" ∨
        product = "PICNIC_BASKET2"
    · rw [r2_ordersFor_eq product hp]
      exact quoteBlock_bounds product (POSITION_LIMITS product) pos _ _ _ h1 h2
    · rw [r2_ordersFor_eq_nil product hp]
      refine ⟨by simp, ?_, ?_⟩ <;> simp [sumQty] <;> omega
  · exact v1_orders_bounds product fv od pos h1 h2

/-- Witness for C1 at position 10, limit 50 (`trader3.py`), position 0 for
`CROISSANTS` (`trader_round2.py`, limit 250) and position 10 for the
`trader.py` step. -/
theorem C1_position_limits_witness :
    (-LIMIT ≤ 10 + sumQty (Trader3.ordersFor "RAINFOREST_RESIN" [] ⟨[], []⟩ 10) ∧
      10 + sumQty (Trader3.ordersFor "RAINFOREST_RESIN" [] ⟨[], []⟩ 10) ≤ LIMIT) ∧
    (-(POSITION_LIMITS "CROISSANTS") ≤
        0 + sumQty (Round2.ordersFor "CROISSANTS" [] [] [] ⟨[], []⟩ 0) ∧
      0 + sumQty (Round2.ordersFor "CROISSANTS" [] [] [] ⟨[], []⟩ 0) ≤
        POSITION_LIMITS "CROISSANTS") ∧
    (-LIMIT ≤ 10 + sumQty (TraderV1.ordersFor "KELP" 20 ⟨[], []⟩ 10) ∧
      10 + sumQty (TraderV1.ordersFor "KELP" 20 ⟨[], []⟩ 10) ≤ LIMIT) := by
  obtain ⟨a, _, _⟩ :=
    C1_position_limits "RAINFOREST_RESIN" [] [] [] [] ⟨[], []⟩ 10 20
  obtain ⟨_, b, _⟩ := C1_position_limits "CROISSANTS" [] [] [] [] ⟨[], []⟩ 0 20
  obtain ⟨_, _, c⟩ := C1_position_limits "KELP" [] [] [] [] ⟨[], []⟩ 10 20
  obtain ⟨_, a2, a3⟩ := a (by decide) (by decide)
  obtain ⟨_, b2, b3⟩ := b (by decide) (by decide)
  obtain ⟨_, c2, c3⟩ := c (by decide) (by decide)
  exact ⟨⟨a2, a3⟩, ⟨b2, b3⟩, ⟨c2, c3⟩⟩
